import Mathlib

/-
Verification of the MCP server discovery, protocol client, and lifecycle
registry of the OptiMac repository (gerdsenai_optimac/mcp/discovery.py,
client.py, registry.py), as a shallow embedding in Lean 4.

Python dicts are modelled as insertion-ordered association lists, JSON
values as an inductive type, and the I/O environment (file system
contents, child-process wire traffic, HTTP responses, process liveness)
as explicit oracle parameters.  Python exceptions that escape a function
are modelled by `Except`/an `Outcome` type; exceptions the source
catches are resolved inside the definitions exactly where the source
catches them.
-/

namespace OptiMac

/-- A JSON value, as produced by Python json.load / json.loads.
Objects keep insertion order, matching Python dicts; numbers are
modelled as integers (no claim depends on float values). -/
inductive Json where
  | null
  | bool (b : Bool)
  | num (n : Int)
  | str (s : String)
  | arr (elems : List Json)
  | obj (entries : List (String × Json))

/-- First-occurrence lookup in an association list, modelling
Python dict indexing / `.get` (keys of a parsed JSON dict are unique). -/
def lookupA {α : Type} : List (String × α) → String → Option α
  | [], _ => none
  | (k, v) :: t, key => if k == key then some v else lookupA t key

/-- Python `d.get(key, default)` on a JSON object. -/
def lookupD (kvs : List (String × Json)) (key : String) (dflt : Json) : Json :=
  (lookupA kvs key).getD dflt

/-- Python truth-value test on a JSON value (`if not config: ...`). -/
def pyFalsy : Json → Bool
  | .null => true
  | .bool b => !b
  | .num n => n == 0
  | .str s => s == ""
  | .arr xs => xs.isEmpty
  | .obj kvs => kvs.isEmpty

/-- Whether a JSON value is exactly the string `t`. -/
def Json.isStr : Json → String → Bool
  | .str s, t => s == t
  | _, _ => false

/-- Whether `nd` occurs at the head of `hay` (character lists). -/
def listIsPref : List Char → List Char → Bool
  | [], _ => true
  | _ :: _, [] => false
  | a :: as, b :: bs => a == b && listIsPref as bs

/-- Whether `nd` occurs as a contiguous run inside `hay`. -/
def listHasSub : List Char → List Char → Bool
  | [], nd => nd.isEmpty
  | h :: t, nd => listIsPref nd (h :: t) || listHasSub t nd

/-- Python substring containment `nd in hay` for strings. -/
def strContainsSub (hay nd : String) : Bool :=
  listHasSub hay.toList nd.toList

/-- A normalized server config as produced by discovery.parse_server_config:
either a stdio entry (command, args, env) or an http entry (url, optional
auth), each tagged with the originating file path once discovered. -/
inductive NormalizedServer where
  | stdio (name : String) (command : Json) (args : Json) (env : Json)
      (source : Option String)
  | http (name : String) (url : Json) (auth : Option Json)
      (source : Option String)

/-- The `name` field of a normalized entry. -/
def NormalizedServer.name : NormalizedServer → String
  | .stdio n _ _ _ _ => n
  | .http n _ _ _ => n

/-- The `source` tag of a normalized entry. -/
def NormalizedServer.source : NormalizedServer → Option String
  | .stdio _ _ _ _ s => s
  | .http _ _ _ s => s

/-- Setting the `source` tag (`parsed["source"] = str(config_path)`). -/
def NormalizedServer.withSource : NormalizedServer → String → NormalizedServer
  | .stdio n c a e _, p => .stdio n c a e (some p)
  | .http n u au _, p => .http n u au (some p)

/-- discovery.parse_server_config(name, config).  Classifies a raw
per-server entry: a falsy value is dropped; a dict with a `command` key
is stdio (args defaulting to `[]`, env to an empty dict); otherwise a
dict with a `url` key is http (auth carried unchanged if present);
a dict with neither key is dropped.  Truthy non-dict values reproduce
the Python behaviour of `"command" in config` / `config["url"]`:
membership on a list or substring test on a string can succeed and then
indexing with a string key raises; membership on a number or boolean
raises TypeError.  Raised exceptions are the `.error` case. -/
def parse_server_config (name : String) (config : Json) :
    Except Unit (Option NormalizedServer) :=
  if pyFalsy config then .ok none
  else
    match config with
    | .obj kvs =>
      match lookupA kvs "command" with
      | some c =>
        .ok (some (.stdio name c (lookupD kvs "args" (.arr []))
          (lookupD kvs "env" (.obj [])) none))
      | none =>
        match lookupA kvs "url" with
        | some u => .ok (some (.http name u (lookupA kvs "auth") none))
        | none => .ok none
    | .str s =>
      if strContainsSub s "command" then .error ()
      else if strContainsSub s "url" then .error ()
      else .ok none
    | .arr xs =>
      if xs.any (fun x => x.isStr "command") then .error ()
      else if xs.any (fun x => x.isStr "url") then .error ()
      else .ok none
    | _ => .error ()

/-- The servers-mapping extraction step of discovery.discover_servers:
check for a top-level `mcpServers` key, then `servers`, then treat the
whole document as the map.  Python iterates the chosen value with
`.items()`, which raises unless it is a dict; a non-dict top-level
document likewise raises on the membership test or on `.items()`. -/
def getServersMapping : Json → Except Unit (List (String × Json))
  | .obj kvs =>
    match lookupA kvs "mcpServers" with
    | some (.obj m) => .ok m
    | some _ => .error ()
    | none =>
      match lookupA kvs "servers" with
      | some (.obj m) => .ok m
      | some _ => .error ()
      | none => .ok kvs
  | _ => .error ()

/-- Parsing every entry of a servers mapping, in iteration order,
keeping the normalized ones tagged with the file path `p`; an exception
from any entry propagates (the source loop has no per-entry handler). -/
def mapEntries (p : String) : List (String × Json) →
    Except Unit (List NormalizedServer)
  | [] => .ok []
  | (n, c) :: t =>
    match parse_server_config n c with
    | .error e => .error e
    | .ok none => mapEntries p t
    | .ok (some s) =>
      match mapEntries p t with
      | .error e => .error e
      | .ok rest => .ok (s.withSource p :: rest)

/-- The contribution of one parsed config file at path `p`. -/
def fileServers (p : String) (j : Json) : Except Unit (List NormalizedServer) :=
  match getServersMapping j with
  | .error e => .error e
  | .ok m => mapEntries p m

/-- The state of one candidate config file: absent, unreadable (OSError),
present but not valid JSON (json.JSONDecodeError), or parsed. -/
inductive FileState where
  | missing
  | unreadable
  | badJson
  | parsed (j : Json)

/-- Whether a file state is the parsed case. -/
def FileState.isParsed : FileState → Bool
  | .parsed _ => true
  | _ => false

/-- discovery.discover_servers over the fixed ordered candidate-path
list, modelled as a path/file-state list.  Missing files are skipped
before the try block; OSError and JSONDecodeError are caught and the
file skipped; any other exception raised while processing a parsed
file propagates out (only those two exception types are handled). -/
def discover_servers : List (String × FileState) →
    Except Unit (List NormalizedServer)
  | [] => .ok []
  | (p, st) :: t =>
    match st with
    | .missing => discover_servers t
    | .unreadable => discover_servers t
    | .badJson => discover_servers t
    | .parsed j =>
      match fileServers p j with
      | .error e => .error e
      | .ok ss =>
        match discover_servers t with
        | .error e => .error e
        | .ok rest => .ok (ss ++ rest)

/-- discovery.get_server_by_name: run discovery and return the first
normalized entry whose name matches, None when there is none. -/
def get_server_by_name (fs : List (String × FileState)) (name : String) :
    Except Unit (Option NormalizedServer) :=
  match discover_servers fs with
  | .error e => .error e
  | .ok servers => .ok (servers.find? (fun s => s.name == name))

/-- The observable connection state of an MCPClient instance
(client.py): its configured server type, the connected flag, and
whether a child process / HTTP session handle is held. -/
structure ClientState where
  serverType : String
  connected : Bool
  hasProcess : Bool
  hasSession : Bool

/-- The result of running a client operation: a normal return value, a
Python exception escaping the operation, or divergence (an await that
never completes, e.g. a readline on a child that never writes, since
the source wraps no stream operation in a timeout). -/
inductive Outcome (α : Type) where
  | ok (a : α)
  | exn (msg : String)
  | diverge

/-- The environment's answer to one read of a response line from the
child's stdout inside MCPClient._send_jsonrpc, together with the write
to its stdin: an I/O exception while writing or reading, a read that
never completes, end of stream (empty read), or a line whose
json.loads result is given (`none` when the line is not valid JSON). -/
inductive ReadOutcome where
  | ioErr (msg : String)
  | hang
  | eof
  | line (parsedLine : Option Json)

/-- The environment's answer to one aiohttp POST in execute_tool:
either a response with a status code and the body's json() parse
(`none` when reading the body as JSON raises), or a raised
client/network exception. -/
inductive PostOutcome where
  | resp (status : Nat) (body : Option Json)
  | exn (msg : String)

/-- The result of an `await self.connect()` issued by execute_tool when
the client is not yet connected: connect catches every exception and
returns a boolean, so it either returns with some new connection state
or hangs (its stdio initialize handshake reads a line with no timeout). -/
inductive ConnAttempt where
  | hangs
  | returns (conn2 proc2 sess2 : Bool)

/-- MCPClient._send_jsonrpc(method, params): returns None when no child
process is held; otherwise writes one request line and reads one
response line.  An unparsable line is caught (json.JSONDecodeError) and
yields None; an empty read yields None; a write/read I/O exception
propagates; a read that never completes diverges (no timeout wraps it). -/
def send_jsonrpc (hasProcess : Bool) (method : String) (params : Json)
    (r : ReadOutcome) : Outcome (Option Json) :=
  let _request := Json.obj [("jsonrpc", .str "2.0"), ("id", .num 1),
    ("method", .str method), ("params", params)]
  if !hasProcess then .ok none
  else
    match r with
    | .ioErr m => .exn m
    | .hang => .diverge
    | .eof => .ok none
    | .line p => .ok p

/-- Python `key in response` on a decoded JSON value: key lookup on a
dict, element equality on a list, substring test on a string, TypeError
otherwise. -/
def pyContains (j : Json) (key : String) : Except Unit Bool :=
  match j with
  | .obj kvs => .ok (lookupA kvs key).isSome
  | .arr xs => .ok (xs.any (fun x => x.isStr key))
  | .str s => .ok (strContainsSub s key)
  | _ => .error ()

/-- Python `response[key]` on a decoded JSON value: dict lookup
(KeyError when absent), TypeError for string keys on anything else. -/
def pyIndex (j : Json) (key : String) : Except Unit Json :=
  match j with
  | .obj kvs =>
    match lookupA kvs key with
    | some v => .ok v
    | none => .error ()
  | _ => .error ()

/-- Python `value.get(key, default)`: only dicts have `.get`
(AttributeError otherwise). -/
def pyDictGet (j : Json) (key : String) (dflt : Json) : Except Unit Json :=
  match j with
  | .obj kvs => .ok (lookupD kvs key dflt)
  | _ => .error ()

/-- The literal error result dict execute_tool builds around a text
message: a single text content item and isError=true. -/
def mkTextError (msg : Json) : Json :=
  .obj [("content", .arr [.obj [("type", .str "text"), ("text", msg)]]),
    ("isError", .bool true)]

/-- The fall-through result of execute_tool. -/
def notConnectedResult : Json :=
  mkTextError (.str "Not connected")

/-- The stdio response handling of execute_tool: `if response and
"result" in response: return response["result"] elif response and
"error" in response: return mkTextError(response["error"].get(
"message", "Unknown error"))`, else fall through to the Not connected
result.  TypeError/AttributeError raised by the membership tests,
indexing, or `.get` propagate (execute_tool has no handler). -/
def handleStdioResponse (j : Json) : Outcome Json :=
  if pyFalsy j then .ok notConnectedResult
  else
    match pyContains j "result" with
    | .error _ => .exn "TypeError"
    | .ok true =>
      match pyIndex j "result" with
      | .ok v => .ok v
      | .error _ => .exn "TypeError"
    | .ok false =>
      match pyContains j "error" with
      | .error _ => .exn "TypeError"
      | .ok true =>
        match pyIndex j "error" with
        | .error _ => .exn "TypeError"
        | .ok ev =>
          match pyDictGet ev "message" (.str "Unknown error") with
          | .ok msg => .ok (mkTextError msg)
          | .error _ => .exn "AttributeError"
      | .ok false => .ok notConnectedResult

/-- MCPClient.execute_tool(tool_name, arguments).  If not connected it
first awaits connect() (outcome supplied by `conn`; the boolean result
is ignored by the source).  The stdio branch sends `tools/call` and
dispatches on the decoded response; the http branch posts to
`<url>/tools/call` — raising AttributeError when no session object was
ever created — and returns the body on HTTP 200 or an `HTTP <status>`
error result otherwise; any other server type falls through to the
`Not connected` error result.  No exception handler exists in this
function, so oracle-raised exceptions escape. -/
def execute_tool (c : ClientState) (conn : ConnAttempt) (send : ReadOutcome)
    (post : PostOutcome) (toolName : String) (arguments : Json) :
    Outcome Json :=
  let attempt := if c.connected then
      ConnAttempt.returns c.connected c.hasProcess c.hasSession
    else conn
  match attempt with
  | .hangs => .diverge
  | .returns _ proc2 sess2 =>
    if c.serverType == "stdio" then
      match send_jsonrpc proc2 "tools/call"
          (.obj [("name", .str toolName), ("arguments", arguments)]) send with
      | .diverge => .diverge
      | .exn m => .exn m
      | .ok none => .ok notConnectedResult
      | .ok (some j) => handleStdioResponse j
    else if c.serverType == "http" then
      if !sess2 then .exn "AttributeError"
      else
        match post with
        | .exn m => .exn m
        | .resp status body =>
          if status == 200 then
            match body with
            | some v => .ok v
            | none => .exn "ContentTypeError"
          else .ok (mkTextError (.str ("HTTP " ++ toString status)))
    else .ok notConnectedResult

/-- registry.ServerInfo: one registered server's mutable record.
`to_dict`/`from_dict` copy every field (started_at through its ISO-8601
string, modelled as an abstract timestamp), so the same structure also
serves as one serialized record of the persisted state file. -/
structure ServerInfo where
  name : String
  config : List (String × Json)
  pid : Option Int
  started_at : Option Nat
  status : String
  error : Option String
  request_count : Nat

/-- registry.ServerInfo.__init__(name, config): fresh record. -/
def freshInfo (name : String) (config : List (String × Json)) : ServerInfo :=
  { name := name, config := config, pid := none, started_at := none,
    status := "stopped", error := none, request_count := 0 }

/-- The registry's in-memory map, an insertion-ordered dict from server
name to ServerInfo. -/
abbrev RegState := List (String × ServerInfo)

/-- Python dict assignment `d[k] = v`: replace the value at an existing
key in place, else append the new key at the end. -/
def updateA {α : Type} : List (String × α) → String → α → List (String × α)
  | [], k, v => [(k, v)]
  | (k1, v1) :: t, k, v =>
    if k1 == k then (k, v) :: t else (k1, v1) :: updateA t k v

/-- The externally visible side effects of a registry operation:
a write of the serialized state file, a SIGTERM sent to a pid
(attempted whether or not the process is still alive), and one
construction-plus-connect of a fresh protocol client (which is what
spawns a child process for stdio configs). -/
inductive Effect where
  | save (recs : List ServerInfo)
  | sigterm (pid : Int)
  | connect

/-- registry.ServerRegistry._save_state: the serialized record list, in
map iteration order (to_dict keeps every field). -/
def saveRecs (st : RegState) : List ServerInfo :=
  st.map (fun e => e.2)

/-- The on-load reconciliation of one record: a persisted `running`
record is forced to `stopped` with pid cleared; all other fields pass
through from_dict unchanged. -/
def resetIfRunning (i : ServerInfo) : ServerInfo :=
  if i.status == "running" then { i with status := "stopped", pid := none }
  else i

/-- registry.ServerRegistry._load_state over an already-decoded record
list: insert each record keyed by its name, resetting running records. -/
def loadRecs (recs : List ServerInfo) : RegState :=
  recs.foldl (fun acc r => updateA acc r.name (resetIfRunning r)) []

/-- registry.ServerRegistry._load_state: a missing state file, or one
whose contents raise json.JSONDecodeError or OSError, leaves the
registry empty (`none` input); otherwise the decoded records are
loaded with the running-to-stopped reset. -/
def loadState : Option (List ServerInfo) → RegState
  | none => []
  | some recs => loadRecs recs

/-- registry.ServerRegistry.register(name, config): unconditionally
store a fresh ServerInfo and persist immediately. -/
def registerRun (st : RegState) (name : String)
    (config : List (String × Json)) : RegState × List Effect :=
  let st2 := updateA st name (freshInfo name config)
  (st2, [Effect.save (saveRecs st2)])

/-- Python truthiness of `info.pid` (None and 0 are falsy). -/
def pidTruthy : Option Int → Bool
  | none => false
  | some v => v != 0

/-- The environment's answer to the `client.connect()` call inside
registry.ServerRegistry.start: connect returned True (carrying the
client's child-process pid when one was spawned, `none` when
`client._process` is None), returned False, or the attempt raised. -/
inductive StartOutcome where
  | connectTrue (procPid : Option Int)
  | connectFalse
  | raised (msg : String)

/-- registry.ServerRegistry.start(name).  Unknown names return False
with no effect.  A server already `running` with a truthy pid that the
liveness probe (signal 0) reports alive is a no-op True.  Otherwise the
record moves to `starting` with error cleared, a fresh client is built
and connected; on True the pid is captured when the config's `type` is
"stdio" and a process handle exists, the record becomes `running`
stamped with now, the state is persisted and True returned; on False
the record becomes `error`/"Failed to connect"; a raised exception
(including the KeyError from a config with no `type` key) is caught
and recorded, status `error`.  Both failure paths persist and return
False. -/
def startRun (st : RegState) (name : String) (alive : Bool)
    (oc : StartOutcome) (now : Nat) : RegState × Bool × List Effect :=
  match lookupA st name with
  | none => (st, false, [])
  | some info =>
    if info.status == "running" && pidTruthy info.pid && alive then
      (st, true, [])
    else
      let info1 := { info with status := "starting", error := none }
      match oc with
      | .raised m =>
        let i2 := { info1 with status := "error", error := some m }
        let st2 := updateA st name i2
        (st2, false, [Effect.connect, Effect.save (saveRecs st2)])
      | .connectFalse =>
        let i2 := { info1 with
            status := "error", error := some "Failed to connect" }
        let st2 := updateA st name i2
        (st2, false, [Effect.connect, Effect.save (saveRecs st2)])
      | .connectTrue procPid =>
        match lookupA info.config "type" with
        | none =>
          let i2 := { info1 with
              status := "error", error := some "KeyError: type" }
          let st2 := updateA st name i2
          (st2, false, [Effect.connect, Effect.save (saveRecs st2)])
        | some t =>
          let newPid := if t.isStr "stdio" && procPid.isSome then procPid
            else info1.pid
          let i2 := { info1 with
              pid := newPid, status := "running", started_at := some now }
          let st2 := updateA st name i2
          (st2, true, [Effect.connect, Effect.save (saveRecs st2)])

/-- registry.ServerRegistry.stop(name).  Unknown names return False; a
record not `running` is a no-op True with no effect.  A running record
whose config `type` is "stdio" with a truthy pid gets a SIGTERM: when
the process is alive the kill succeeds and `info.pid = None` executes;
when it is already gone the kill raises ProcessLookupError, which is
swallowed — but the pid-clearing line is skipped.  A running record
whose config lacks a `type` key raises KeyError out of stop with no
state change.  All non-raising running paths end `stopped` and
persist. -/
def stopRun (st : RegState) (name : String) (alive : Bool) :
    RegState × Except Unit Bool × List Effect :=
  match lookupA st name with
  | none => (st, .ok false, [])
  | some info =>
    if info.status != "running" then (st, .ok true, [])
    else
      match lookupA info.config "type" with
      | none => (st, .error (), [])
      | some t =>
        if t.isStr "stdio" && pidTruthy info.pid then
          let info1 := if alive then { info with pid := none } else info
          let i2 := { info1 with status := "stopped" }
          let st2 := updateA st name i2
          (st2, .ok true, [Effect.sigterm (info.pid.getD 0),
            Effect.save (saveRecs st2)])
        else
          let i2 := { info with status := "stopped" }
          let st2 := updateA st name i2
          (st2, .ok true, [Effect.save (saveRecs st2)])

/-- registry.ServerRegistry.restart(name): stop, a brief pause, then
start; the stop result is ignored, but an exception raised by stop
propagates.  The liveness answers at stop time and at start time are
independent oracle inputs. -/
def restartRun (st : RegState) (name : String) (aliveStop aliveStart : Bool)
    (oc : StartOutcome) (now : Nat) :
    RegState × Except Unit Bool × List Effect :=
  match stopRun st name aliveStop with
  | (st1, .error e, effs) => (st1, .error e, effs)
  | (st1, .ok _, effs) =>
    match startRun st1 name aliveStart oc now with
    | (st2, b, effs2) => (st2, .ok b, effs ++ effs2)

/-- registry.ServerRegistry.increment_request_count(name): add one and
persist for a known name, a silent no-op for an unknown one. -/
def incrementRun (st : RegState) (name : String) : RegState × List Effect :=
  match lookupA st name with
  | none => (st, [])
  | some info =>
    let i2 := { info with request_count := info.request_count + 1 }
    let st2 := updateA st name i2
    (st2, [Effect.save (saveRecs st2)])

/-- One registry operation together with its oracle inputs; `reloadOp`
is a persist of the current state followed by a fresh load of that
file, as happens across a control-plane restart. -/
inductive RegOp where
  | registerOp (name : String) (config : List (String × Json))
  | startOp (name : String) (alive : Bool) (oc : StartOutcome) (now : Nat)
  | stopOp (name : String) (alive : Bool)
  | restartOp (name : String) (aliveStop aliveStart : Bool)
      (oc : StartOutcome) (now : Nat)
  | incrementOp (name : String)
  | reloadOp

/-- The state after one registry operation. -/
def applyOp (st : RegState) : RegOp → RegState
  | .registerOp name config => (registerRun st name config).1
  | .startOp name alive oc now => (startRun st name alive oc now).1
  | .stopOp name alive => (stopRun st name alive).1
  | .restartOp name a1 a2 oc now => (restartRun st name a1 a2 oc now).1
  | .incrementOp name => (incrementRun st name).1
  | .reloadOp => loadState (some (saveRecs st))

/-- Whether an operation is a register call. -/
def RegOp.isRegister : RegOp → Bool
  | .registerOp _ _ => true
  | _ => false

/-- Registry states reachable from a fresh (empty or just-loaded-empty)
registry by any sequence of operations. -/
inductive Reachable : RegState → Prop where
  | init : Reachable []
  | step {st : RegState} (h : Reachable st) (op : RegOp) :
      Reachable (applyOp st op)

/-- Whether an Except value is the ok case. -/
def isOkE {α : Type} : Except Unit α → Bool
  | .ok _ => true
  | .error _ => false

/-- The servers one candidate file contributes to the discovery result
(empty for skipped files, and empty as a placeholder for files whose
processing raises). -/
def fileContribution (p : String) : FileState → List NormalizedServer
  | .parsed j =>
    match fileServers p j with
    | .ok ss => ss
    | .error _ => []
  | _ => []

/-- Whether a candidate file is benign for discovery: either skipped
(missing, unreadable, invalid JSON) or parsed into a shape whose
processing raises no exception. -/
def fileOk (p : String) : FileState → Bool
  | .parsed j => isOkE (fileServers p j)
  | _ => true

/-- A Claude-Desktop-shaped config file defining one stdio server,
used as a concrete discovery input. -/
def shapeDemoFile : Json :=
  .obj [("mcpServers", .obj [("srv", .obj [("command", .str "run")])])]

/-- A connected stdio client holding a child process, as left behind by
a successful connect. -/
def connectedStdioClient : ClientState :=
  { serverType := "stdio", connected := true, hasProcess := true,
    hasSession := false }

/-- A normalized stdio server config as stored in the registry. -/
def stdioDemoConfig : List (String × Json) :=
  [("type", Json.str "stdio"), ("command", Json.str "demo")]

/-- A running stdio ServerInfo record with a tracked pid and a nonzero
request counter, as a persisted-state specimen. -/
def demoRunningInfo : ServerInfo :=
  { name := "old", config := stdioDemoConfig, pid := some 9,
    started_at := some 1, status := "running", error := none,
    request_count := 4 }

/-- A candidate file defining server `srv` with command `a`. -/
def fileA : String × FileState :=
  ("fileA", .parsed (.obj [("mcpServers",
    .obj [("srv", .obj [("command", .str "a")])])]))

/-- A second candidate file also defining server `srv`, with command
`b`. -/
def fileB : String × FileState :=
  ("fileB", .parsed (.obj [("mcpServers",
    .obj [("srv", .obj [("command", .str "b")])])]))

/-- The fold step used by loadRecs. -/
def loadStep (acc : RegState) (r : ServerInfo) : RegState :=
  updateA acc r.name (resetIfRunning r)

/-- The names of the serialized records are the registry's keys whenever
the in-memory map is name-consistent. -/
def namesConsistent (st : RegState) : Prop :=
  ∀ e ∈ st, e.2.name = e.1

/-- Every non-absent pid belongs to a server whose config transport is
stdio. -/
def pidInv (st : RegState) : Prop :=
  ∀ e ∈ st, e.2.pid ≠ none →
    lookupA e.2.config "type" = some (Json.str "stdio")

/-- The registry's internal well-formedness: unique keys, each record
named after its key, and pids only on stdio-config records. -/
def RegInv (st : RegState) : Prop :=
  (st.map Prod.fst).Nodup ∧ namesConsistent st ∧ pidInv st

theorem lookupA_updateA_self {α : Type} (l : List (String × α)) (k : String)
    (v : α) : lookupA (updateA l k v) k = some v := by
  induction l with
  | nil => simp [updateA, lookupA]
  | cons e t ih =>
    obtain ⟨k1, v1⟩ := e
    by_cases h : k1 = k
    · subst h
      simp [updateA, lookupA]
    · simp only [updateA, lookupA, beq_iff_eq, if_neg h]
      exact ih

theorem lookupA_updateA_ne {α : Type} (l : List (String × α)) (k k2 : String)
    (v : α) (h : k2 ≠ k) : lookupA (updateA l k v) k2 = lookupA l k2 := by
  induction l with
  | nil =>
    simp only [updateA, lookupA, beq_iff_eq]
    rw [if_neg (fun hh => h (hh.symm))]
  | cons e t ih =>
    obtain ⟨k1, v1⟩ := e
    by_cases hk : k1 = k
    · subst hk
      simp only [updateA, lookupA, beq_iff_eq, if_pos rfl]
      rw [if_neg (fun hh => h (hh.symm)), if_neg (fun hh => h (hh.symm))]
    · simp only [updateA, lookupA, beq_iff_eq, if_neg hk]
      by_cases ht : k1 = k2
      · rw [if_pos ht, if_pos ht]
      · rw [if_neg ht, if_neg ht]
        exact ih

theorem lookupA_some_mem {α : Type} {l : List (String × α)} {k : String}
    {v : α} (h : lookupA l k = some v) : (k, v) ∈ l := by
  induction l with
  | nil => simp [lookupA] at h
  | cons e t ih =>
    obtain ⟨k1, v1⟩ := e
    by_cases hk : k1 = k
    · subst hk
      simp only [lookupA, beq_self_eq_true, if_true, Option.some.injEq] at h
      subst h
      exact List.mem_cons_self _ _
    · simp only [lookupA, beq_iff_eq, if_neg hk] at h
      exact List.mem_cons_of_mem _ (ih h)

theorem mem_updateA {α : Type} {l : List (String × α)} {k : String} {v : α}
    {e : String × α} (h : e ∈ updateA l k v) : e ∈ l ∨ e = (k, v) := by
  induction l with
  | nil =>
    simp only [updateA, List.mem_singleton] at h
    exact Or.inr h
  | cons e1 t ih =>
    obtain ⟨k1, v1⟩ := e1
    by_cases hk : k1 = k
    · subst hk
      simp only [updateA, beq_self_eq_true, if_true, List.mem_cons] at h
      rcases h with h | h
      · exact Or.inr h
      · exact Or.inl (List.mem_cons_of_mem _ h)
    · simp only [updateA, beq_iff_eq, if_neg hk, List.mem_cons] at h
      rcases h with h | h
      · exact Or.inl (h ▸ List.mem_cons_self _ _)
      · rcases ih h with h2 | h2
        · exact Or.inl (List.mem_cons_of_mem _ h2)
        · exact Or.inr h2

theorem keys_mem_updateA {α : Type} {l : List (String × α)} {k : String}
    {v : α} {x : String} (h : x ∈ (updateA l k v).map Prod.fst) :
    x ∈ l.map Prod.fst ∨ x = k := by
  rcases List.mem_map.mp h with ⟨e, he, hx⟩
  rcases mem_updateA he with h1 | h1
  · exact Or.inl (hx ▸ List.mem_map_of_mem _ h1)
  · subst h1
    exact Or.inr hx.symm

theorem nodup_keys_updateA {α : Type} {l : List (String × α)} (k : String)
    (v : α) (h : (l.map Prod.fst).Nodup) :
    ((updateA l k v).map Prod.fst).Nodup := by
  induction l with
  | nil => simp [updateA]
  | cons e t ih =>
    obtain ⟨k1, v1⟩ := e
    simp only [List.map_cons, List.nodup_cons] at h
    by_cases hk : k1 = k
    · subst hk
      simp only [updateA, beq_self_eq_true, if_true, List.map_cons, List.nodup_cons]
      exact h
    · simp only [updateA, beq_iff_eq, if_neg hk, List.map_cons,
        List.nodup_cons]
      refine ⟨fun hmem => ?_, ih h.2⟩
      rcases keys_mem_updateA hmem with h2 | h2
      · exact h.1 h2
      · exact hk h2

theorem updateA_of_not_mem {α : Type} {l : List (String × α)} {k : String}
    (v : α) (h : k ∉ l.map Prod.fst) : updateA l k v = l ++ [(k, v)] := by
  induction l with
  | nil => simp [updateA]
  | cons e t ih =>
    obtain ⟨k1, v1⟩ := e
    simp only [List.map_cons, List.mem_cons] at h
    push_neg at h
    have hne : ¬ k1 = k := fun hh => h.1 hh.symm
    simp only [updateA, beq_iff_eq, if_neg hne, List.cons_append,
      List.cons.injEq, true_and]
    exact ih h.2

theorem lookupA_map_snd {α β : Type} (l : List (String × α)) (f : α → β)
    (k : String) :
    lookupA (l.map (fun e => (e.1, f e.2))) k = (lookupA l k).map f := by
  induction l with
  | nil => simp [lookupA]
  | cons e t ih =>
    obtain ⟨k1, v1⟩ := e
    by_cases hk : k1 = k
    · subst hk
      simp [lookupA]
    · simp only [List.map_cons, lookupA, beq_iff_eq, if_neg hk]
      exact ih

theorem loadRecs_eq_foldl (recs : List ServerInfo) :
    loadRecs recs = recs.foldl loadStep [] := rfl

theorem foldl_loadStep_mem {recs : List ServerInfo} :
    ∀ {acc : RegState} {e : String × ServerInfo},
    e ∈ recs.foldl loadStep acc →
    e ∈ acc ∨ ∃ r ∈ recs, e = (r.name, resetIfRunning r) := by
  induction recs with
  | nil =>
    intro acc e h
    exact Or.inl h
  | cons r t ih =>
    intro acc e h
    simp only [List.foldl_cons] at h
    rcases ih h with h1 | h1
    · rcases mem_updateA h1 with h2 | h2
      · exact Or.inl h2
      · exact Or.inr ⟨r, List.mem_cons_self _ _, h2⟩
    · rcases h1 with ⟨r2, hr2, he⟩
      exact Or.inr ⟨r2, List.mem_cons_of_mem _ hr2, he⟩

theorem foldl_loadStep_nodup {recs : List ServerInfo} :
    ∀ {acc : RegState}, (acc.map Prod.fst).Nodup →
    ((recs.foldl loadStep acc).map Prod.fst).Nodup := by
  induction recs with
  | nil =>
    intro acc h
    exact h
  | cons r t ih =>
    intro acc h
    simp only [List.foldl_cons]
    exact ih (nodup_keys_updateA _ _ h)

theorem foldl_loadStep_append {recs : List ServerInfo} :
    ∀ {acc : RegState}, (∀ r ∈ recs, r.name ∉ acc.map Prod.fst) →
    (recs.map ServerInfo.name).Nodup →
    recs.foldl loadStep acc =
      acc ++ recs.map (fun r => (r.name, resetIfRunning r)) := by
  induction recs with
  | nil =>
    intro acc _ _
    simp
  | cons r t ih =>
    intro acc hfresh hnd
    simp only [List.map_cons, List.nodup_cons] at hnd
    have h1 : loadStep acc r = acc ++ [(r.name, resetIfRunning r)] :=
      updateA_of_not_mem _ (hfresh r (List.mem_cons_self _ _))
    simp only [List.foldl_cons, h1]
    rw [ih ?fresh hnd.2]
    · simp
    case fresh =>
      intro r2 hr2
      simp only [List.map_append, List.mem_append, List.map_cons]
      push_neg
      refine ⟨hfresh r2 (List.mem_cons_of_mem _ hr2), ?_⟩
      simp only [List.map_nil, List.mem_singleton]
      intro hh
      exact hnd.1 (hh ▸ List.mem_map_of_mem ServerInfo.name hr2)

theorem regInv_nil : RegInv [] := by
  refine ⟨List.nodup_nil, ?_, ?_⟩ <;> intro e he <;> simp at he

theorem regInv_updateA {st : RegState} {name : String} {i : ServerInfo}
    (h : RegInv st) (hname : i.name = name)
    (hpid : i.pid ≠ none → lookupA i.config "type" = some (Json.str "stdio")) :
    RegInv (updateA st name i) := by
  refine ⟨nodup_keys_updateA _ _ h.1, ?_, ?_⟩
  · intro e he
    rcases mem_updateA he with h1 | h1
    · exact h.2.1 e h1
    · subst h1
      exact hname
  · intro e he hp
    rcases mem_updateA he with h1 | h1
    · exact h.2.2 e h1 hp
    · subst h1
      exact hpid hp

theorem lookupA_pid_stdio {st : RegState} {name : String} {info : ServerInfo}
    (h : RegInv st) (hl : lookupA st name = some info) (hp : info.pid ≠ none) :
    lookupA info.config "type" = some (Json.str "stdio") :=
  h.2.2 (name, info) (lookupA_some_mem hl) hp

theorem isStr_eq {t : Json} {s : String} (h : t.isStr s = true) :
    t = Json.str s := by
  cases t <;> simp [Json.isStr] at h
  exact congrArg Json.str h

/-- Every run of start either leaves the map unchanged or rewrites the
named entry with a record of the same name, config and request count,
whose pid is the old one unless a fresh stdio pid was captured. -/
theorem startRun_cases (st : RegState) (name : String) (alive : Bool)
    (oc : StartOutcome) (now : Nat) :
    (startRun st name alive oc now).1 = st ∨
    ∃ info i2, lookupA st name = some info ∧
      (startRun st name alive oc now).1 = updateA st name i2 ∧
      i2.name = info.name ∧ i2.config = info.config ∧
      i2.request_count = info.request_count ∧
      (i2.pid = info.pid ∨ (i2.pid ≠ none ∧
        lookupA info.config "type" = some (Json.str "stdio"))) := by
  unfold startRun
  rcases hl : lookupA st name with _ | info
  · exact Or.inl rfl
  · dsimp only
    split
    · exact Or.inl rfl
    · cases oc with
      | raised m =>
        exact Or.inr ⟨info, _, rfl, rfl, rfl, rfl, rfl, Or.inl rfl⟩
      | connectFalse =>
        exact Or.inr ⟨info, _, rfl, rfl, rfl, rfl, rfl, Or.inl rfl⟩
      | connectTrue procPid =>
        rcases hc : lookupA info.config "type" with _ | t
        · exact Or.inr ⟨info, _, rfl, rfl, rfl, rfl, rfl, Or.inl rfl⟩
        · refine Or.inr ⟨info, _, rfl, rfl, rfl, rfl, rfl, ?_⟩
          by_cases hcond : (t.isStr "stdio" && procPid.isSome) = true
          · rw [if_pos hcond]
            rcases procPid with _ | p
            · simp at hcond
            · refine Or.inr ⟨by simp, ?_⟩
              rw [hc, isStr_eq (Bool.and_elim_left hcond)]
          · rw [if_neg hcond]
            exact Or.inl rfl

/-- Every run of stop either leaves the map unchanged (unknown name,
non-running record, or the KeyError path) or rewrites the named entry
with the same name, config and request count, the pid either kept or
cleared. -/
theorem stopRun_cases (st : RegState) (name : String) (alive : Bool) :
    (stopRun st name alive).1 = st ∨
    ∃ info i2, lookupA st name = some info ∧
      (stopRun st name alive).1 = updateA st name i2 ∧
      i2.name = info.name ∧ i2.config = info.config ∧
      i2.request_count = info.request_count ∧
      (i2.pid = info.pid ∨ i2.pid = none) := by
  unfold stopRun
  rcases hl : lookupA st name with _ | info
  · exact Or.inl rfl
  · dsimp only
    split
    · exact Or.inl rfl
    · rcases hc : lookupA info.config "type" with _ | t
      · exact Or.inl rfl
      · dsimp only
        split
        · by_cases ha : alive = true
          · rw [if_pos ha]
            exact Or.inr ⟨info, _, rfl, rfl, rfl, rfl, rfl, Or.inr rfl⟩
          · rw [if_neg ha]
            exact Or.inr ⟨info, _, rfl, rfl, rfl, rfl, rfl, Or.inl rfl⟩
        · exact Or.inr ⟨info, _, rfl, rfl, rfl, rfl, rfl, Or.inl rfl⟩

/-- increment_request_count leaves the map unchanged for an unknown
name, else bumps exactly the named record's counter by one. -/
theorem incrementRun_cases (st : RegState) (name : String) :
    (incrementRun st name).1 = st ∨
    ∃ info, lookupA st name = some info ∧
      (incrementRun st name).1 = updateA st name
        { info with request_count := info.request_count + 1 } := by
  unfold incrementRun
  rcases hl : lookupA st name with _ | info
  · exact Or.inl rfl
  · exact Or.inr ⟨info, rfl, rfl⟩

theorem map_congr_mem {α β : Type} {l : List α} {f g : α → β}
    (h : ∀ a ∈ l, f a = g a) : l.map f = l.map g := by
  induction l with
  | nil => rfl
  | cons a t ih =>
    simp only [List.map_cons]
    rw [h a (List.mem_cons_self _ _), ih (fun x hx => h x (List.mem_cons_of_mem _ hx))]

theorem resetIfRunning_name (r : ServerInfo) :
    (resetIfRunning r).name = r.name := by
  unfold resetIfRunning
  split <;> rfl

theorem resetIfRunning_config (r : ServerInfo) :
    (resetIfRunning r).config = r.config := by
  unfold resetIfRunning
  split <;> rfl

theorem resetIfRunning_rc (r : ServerInfo) :
    (resetIfRunning r).request_count = r.request_count := by
  unfold resetIfRunning
  split <;> rfl

theorem resetIfRunning_pid_ne {r : ServerInfo}
    (h : (resetIfRunning r).pid ≠ none) : (resetIfRunning r).pid = r.pid := by
  unfold resetIfRunning at h ⊢
  by_cases hs : (r.status == "running") = true
  · rw [if_pos hs] at h
    exact absurd rfl h
  · rw [if_neg hs]

theorem resetIfRunning_not_running (r : ServerInfo) :
    (resetIfRunning r).status ≠ "running" := by
  unfold resetIfRunning
  by_cases hs : (r.status == "running") = true
  · rw [if_pos hs]
    intro hh
    simp at hh
  · rw [if_neg hs]
    intro hh
    exact hs (beq_iff_eq.mpr hh)

theorem mem_loadState {recs : List ServerInfo} {e : String × ServerInfo}
    (h : e ∈ loadState (some recs)) :
    ∃ r ∈ recs, e = (r.name, resetIfRunning r) := by
  have h2 := @foldl_loadStep_mem recs [] e h
  rcases h2 with h2 | h2
  · simp at h2
  · exact h2

theorem regInv_register {st : RegState} (h : RegInv st) (name : String)
    (config : List (String × Json)) :
    RegInv (registerRun st name config).1 := by
  refine regInv_updateA h rfl ?_
  intro hp
  exact absurd rfl hp

theorem regInv_start {st : RegState} (h : RegInv st) (name : String)
    (alive : Bool) (oc : StartOutcome) (now : Nat) :
    RegInv (startRun st name alive oc now).1 := by
  rcases startRun_cases st name alive oc now with h1 | ⟨info, i2, hl, heq, hn, hcfg, _, hpid⟩
  · rw [h1]
    exact h
  · rw [heq]
    refine regInv_updateA h ?_ ?_
    · rw [hn]
      exact h.2.1 _ (lookupA_some_mem hl)
    · intro hp
      rw [hcfg]
      rcases hpid with hp2 | ⟨_, hstd⟩
      · exact lookupA_pid_stdio h hl (hp2 ▸ hp)
      · exact hstd

theorem regInv_stop {st : RegState} (h : RegInv st) (name : String)
    (alive : Bool) : RegInv (stopRun st name alive).1 := by
  rcases stopRun_cases st name alive with h1 | ⟨info, i2, hl, heq, hn, hcfg, _, hpid⟩
  · rw [h1]
    exact h
  · rw [heq]
    refine regInv_updateA h ?_ ?_
    · rw [hn]
      exact h.2.1 _ (lookupA_some_mem hl)
    · intro hp
      rw [hcfg]
      rcases hpid with hp2 | hp2
      · exact lookupA_pid_stdio h hl (hp2 ▸ hp)
      · exact absurd hp2 hp

theorem regInv_increment {st : RegState} (h : RegInv st) (name : String) :
    RegInv (incrementRun st name).1 := by
  rcases incrementRun_cases st name with h1 | ⟨info, hl, heq⟩
  · rw [h1]
    exact h
  · rw [heq]
    refine regInv_updateA h ?_ ?_
    · exact h.2.1 _ (lookupA_some_mem hl)
    · intro hp
      exact @lookupA_pid_stdio st name info h hl hp

theorem regInv_reload {st : RegState} (h : RegInv st) :
    RegInv (loadState (some (saveRecs st))) := by
  refine ⟨foldl_loadStep_nodup List.nodup_nil, ?_, ?_⟩
  · intro e he
    rcases mem_loadState he with ⟨r, _, he2⟩
    rw [he2]
    exact resetIfRunning_name r
  · intro e he hp
    rcases mem_loadState he with ⟨r, hr, he2⟩
    subst he2
    have hp2 : (resetIfRunning r).pid ≠ none := hp
    have hpr : r.pid ≠ none := by
      rw [resetIfRunning_pid_ne hp2] at hp2
      exact hp2
    rcases List.mem_map.mp hr with ⟨e2, he2m, hre⟩
    show lookupA (resetIfRunning r).config "type" = some (Json.str "stdio")
    rw [resetIfRunning_config]
    have h3 := h.2.2 e2 he2m (by rw [hre]; exact hpr)
    rw [hre] at h3
    exact h3

theorem regInv_restart {st : RegState} (h : RegInv st) (name : String)
    (a1 a2 : Bool) (oc : StartOutcome) (now : Nat) :
    RegInv (restartRun st name a1 a2 oc now).1 := by
  unfold restartRun
  rcases hs : stopRun st name a1 with ⟨st1, r, effs⟩
  have h1 : RegInv st1 := by
    have h2 := regInv_stop h name a1
    rw [hs] at h2
    exact h2
  cases r with
  | error e => exact h1
  | ok b =>
    dsimp only
    rcases hst : startRun st1 name a2 oc now with ⟨st2, b2, effs2⟩
    have h2 := regInv_start h1 name a2 oc now
    rw [hst] at h2
    exact h2

theorem regInv_applyOp {st : RegState} (h : RegInv st) (op : RegOp) :
    RegInv (applyOp st op) := by
  cases op with
  | registerOp name config => exact regInv_register h name config
  | startOp name alive oc now => exact regInv_start h name alive oc now
  | stopOp name alive => exact regInv_stop h name alive
  | restartOp name a1 a2 oc now => exact regInv_restart h name a1 a2 oc now
  | incrementOp name => exact regInv_increment h name
  | reloadOp => exact regInv_reload h

theorem reachable_regInv {st : RegState} (h : Reachable st) : RegInv st := by
  induction h with
  | init => exact regInv_nil
  | step _ op ih => exact regInv_applyOp ih op

theorem reload_lookupA {st : RegState} (h : RegInv st) (t : String) :
    lookupA (loadState (some (saveRecs st))) t =
      (lookupA st t).map resetIfRunning := by
  have hnames : (saveRecs st).map ServerInfo.name = st.map Prod.fst := by
    unfold saveRecs
    rw [List.map_map]
    exact map_congr_mem (fun e he => h.2.1 e he)
  have hnd : ((saveRecs st).map ServerInfo.name).Nodup := by
    rw [hnames]
    exact h.1
  have heq : loadState (some (saveRecs st)) =
      (saveRecs st).map (fun r => (r.name, resetIfRunning r)) := by
    show loadRecs (saveRecs st) = _
    rw [loadRecs_eq_foldl, foldl_loadStep_append (fun r _ => by simp) hnd,
      List.nil_append]
  rw [heq]
  have h2 : (saveRecs st).map (fun r => (r.name, resetIfRunning r)) =
      st.map (fun e => (e.1, resetIfRunning e.2)) := by
    unfold saveRecs
    rw [List.map_map]
    exact map_congr_mem (fun e he => by
      simp only [Function.comp]
      rw [h.2.1 e he])
  rw [h2, lookupA_map_snd]

theorem discover_append {fs1 fs2 : List (String × FileState)}
    {s1 s2 : List NormalizedServer} (h1 : discover_servers fs1 = .ok s1)
    (h2 : discover_servers fs2 = .ok s2) :
    discover_servers (fs1 ++ fs2) = .ok (s1 ++ s2) := by
  induction fs1 generalizing s1 with
  | nil =>
    simp only [discover_servers] at h1
    injection h1 with h1
    subst h1
    simpa using h2
  | cons e t ih =>
    obtain ⟨p, st⟩ := e
    cases st with
    | missing => exact ih h1
    | unreadable => exact ih h1
    | badJson => exact ih h1
    | parsed j =>
      simp only [discover_servers, List.cons_append] at h1 ⊢
      rcases hf : fileServers p j with _ | ss
      · rw [hf] at h1
        exact absurd h1 (by simp)
      · rw [hf] at h1
        rcases hd : discover_servers t with _ | rest
        · rw [hd] at h1
          exact absurd h1 (by simp)
        · rw [hd] at h1
          injection h1 with h1
          subst h1
          have ih2 : discover_servers (t.append fs2) = .ok (rest ++ s2) :=
            ih hd
          rw [ih2]
          simp [List.append_assoc]

theorem discover_append_split {fs1 fs2 : List (String × FileState)}
    {ss s1 : List NormalizedServer}
    (h : discover_servers (fs1 ++ fs2) = .ok ss)
    (h1 : discover_servers fs1 = .ok s1) :
    ∃ s2, discover_servers fs2 = .ok s2 ∧ ss = s1 ++ s2 := by
  induction fs1 generalizing s1 ss with
  | nil =>
    simp only [discover_servers] at h1
    injection h1 with h1
    subst h1
    exact ⟨ss, by simpa using h, by simp⟩
  | cons e t ih =>
    obtain ⟨p, st⟩ := e
    cases st with
    | missing => exact ih h h1
    | unreadable => exact ih h h1
    | badJson => exact ih h h1
    | parsed j =>
      simp only [discover_servers, List.cons_append] at h h1
      rcases hf : fileServers p j with _ | fss
      · rw [hf] at h1
        exact absurd h1 (by simp)
      · rw [hf] at h h1
        rcases hd : discover_servers t with _ | rest
        · rw [hd] at h1
          exact absurd h1 (by simp)
        · rw [hd] at h1
          injection h1 with h1
          subst h1
          rcases hd2 : discover_servers (t.append fs2) with _ | rest2
          · rw [hd2] at h
            exact absurd h (by simp)
          · rw [hd2] at h
            injection h with h
            subst h
            have hd3 : discover_servers (t ++ fs2) = .ok rest2 := hd2
            rcases ih hd3 hd with ⟨s2, hs2, hrest⟩
            subst hrest
            exact ⟨s2, hs2, by simp [List.append_assoc]⟩

theorem find?_append_some {α : Type} {p : α → Bool} {l1 : List α} (l2 : List α)
    {r : α} (h : l1.find? p = some r) : (l1 ++ l2).find? p = some r := by
  induction l1 with
  | nil => simp [List.find?] at h
  | cons a t ih =>
    rw [List.cons_append]
    by_cases ha : p a = true
    · rw [List.find?_cons_of_pos _ ha] at h
      rw [List.find?_cons_of_pos _ ha]
      exact h
    · rw [List.find?_cons_of_neg _ ha] at h
      rw [List.find?_cons_of_neg _ ha]
      exact ih h

theorem find?_some_earliest {α : Type} (p : α → Bool) :
    ∀ (l : List α) (a : α), l.find? p = some a →
    ∃ i, ∃ hi : i < l.length, l.get ⟨i, hi⟩ = a ∧
      ∀ x ∈ l.take i, p x = false := by
  intro l
  induction l with
  | nil =>
    intro a h
    simp [List.find?] at h
  | cons b t ih =>
    intro a h
    by_cases hb : p b = true
    · rw [List.find?_cons_of_pos _ hb] at h
      injection h with h
      subst h
      exact ⟨0, by simp, rfl, by simp⟩
    · have hb2 : p b = false := by
        cases hpb : p b
        · rfl
        · exact absurd hpb hb
      rw [List.find?_cons_of_neg _ (by simp [hb2])] at h
      rcases ih a h with ⟨i, hi, hget, htake⟩
      refine ⟨i + 1, by simpa using hi, hget, ?_⟩
      intro x hx
      simp only [List.take_succ_cons, List.mem_cons] at hx
      rcases hx with hx | hx
      · subst hx
        exact hb2
      · exact htake x hx

theorem rc_le_of_updateA {st : RegState} {name : String} {info i2 : ServerInfo}
    {t : String} {i : ServerInfo} (hl : lookupA st name = some info)
    (hrc : info.request_count ≤ i2.request_count)
    (h : lookupA st t = some i) :
    ∃ j, lookupA (updateA st name i2) t = some j ∧
      i.request_count ≤ j.request_count := by
  by_cases ht : t = name
  · subst ht
    rw [hl] at h
    injection h with h
    subst h
    exact ⟨i2, lookupA_updateA_self _ _ _, hrc⟩
  · refine ⟨i, ?_, le_refl _⟩
    rw [lookupA_updateA_ne _ _ _ _ ht]
    exact h

theorem rc_mono_start {st : RegState} {name : String} {alive : Bool}
    {oc : StartOutcome} {now : Nat} {t : String} {i : ServerInfo}
    (h : lookupA st t = some i) :
    ∃ j, lookupA (startRun st name alive oc now).1 t = some j ∧
      i.request_count ≤ j.request_count := by
  rcases startRun_cases st name alive oc now with h1 | ⟨info, i2, hl, heq, _, _, hrc, _⟩
  · refine ⟨i, ?_, le_refl _⟩
    rw [h1]
    exact h
  · rw [heq]
    exact rc_le_of_updateA hl (le_of_eq hrc.symm) h

theorem rc_mono_stop {st : RegState} {name : String} {alive : Bool}
    {t : String} {i : ServerInfo} (h : lookupA st t = some i) :
    ∃ j, lookupA (stopRun st name alive).1 t = some j ∧
      i.request_count ≤ j.request_count := by
  rcases stopRun_cases st name alive with h1 | ⟨info, i2, hl, heq, _, _, hrc, _⟩
  · refine ⟨i, ?_, le_refl _⟩
    rw [h1]
    exact h
  · rw [heq]
    exact rc_le_of_updateA hl (le_of_eq hrc.symm) h

theorem rc_mono_increment {st : RegState} {name : String} {t : String}
    {i : ServerInfo} (h : lookupA st t = some i) :
    ∃ j, lookupA (incrementRun st name).1 t = some j ∧
      i.request_count ≤ j.request_count := by
  rcases incrementRun_cases st name with h1 | ⟨info, hl, heq⟩
  · refine ⟨i, ?_, le_refl _⟩
    rw [h1]
    exact h
  · rw [heq]
    exact rc_le_of_updateA hl (by simp) h

theorem rc_mono_restart {st : RegState} {name : String} {a1 a2 : Bool}
    {oc : StartOutcome} {now : Nat} {t : String} {i : ServerInfo}
    (h : lookupA st t = some i) :
    ∃ j, lookupA (restartRun st name a1 a2 oc now).1 t = some j ∧
      i.request_count ≤ j.request_count := by
  unfold restartRun
  rcases hs : stopRun st name a1 with ⟨st1, r, effs⟩
  have h1 : ∃ j, lookupA st1 t = some j ∧ i.request_count ≤ j.request_count := by
    have h2 := @rc_mono_stop st name a1 t i h
    rw [hs] at h2
    exact h2
  rcases h1 with ⟨j, hj, hle⟩
  cases r with
  | error e => exact ⟨j, hj, hle⟩
  | ok b =>
    dsimp only
    rcases hst : startRun st1 name a2 oc now with ⟨st2, b2, effs2⟩
    have h3 := @rc_mono_start st1 name a2 oc now t j hj
    rw [hst] at h3
    rcases h3 with ⟨k, hk, hle2⟩
    exact ⟨k, hk, le_trans hle hle2⟩

theorem rc_mono_applyOp {st : RegState} {op : RegOp} {t : String}
    {i : ServerInfo} (hinv : RegInv st) (hop : op.isRegister = false)
    (h : lookupA st t = some i) :
    ∃ j, lookupA (applyOp st op) t = some j ∧
      i.request_count ≤ j.request_count := by
  cases op with
  | registerOp name config => simp [RegOp.isRegister] at hop
  | startOp name alive oc now => exact @rc_mono_start st name alive oc now t i h
  | stopOp name alive => exact @rc_mono_stop st name alive t i h
  | restartOp name a1 a2 oc now =>
    exact @rc_mono_restart st name a1 a2 oc now t i h
  | incrementOp name =>
    exact @rc_mono_increment st name t i h
  | reloadOp =>
    refine ⟨resetIfRunning i, ?_, le_of_eq (resetIfRunning_rc i).symm⟩
    show lookupA (loadState (some (saveRecs st))) t = _
    rw [reload_lookupA hinv, h]
    rfl

/-- C5: for every raw per-server config entry (a JSON object),
normalization classifies it as stdio when a `command` key is present,
with args defaulting to the empty list and env to the empty mapping;
otherwise as http when a `url` key is present, carrying the `auth`
sub-object unchanged when present (the stdio arm fires even when both
keys are present, so classification is deterministic); and an entry
with neither key is dropped (`ok none`) without error. -/
theorem parse_server_config_classification (name : String)
    (kvs : List (String × Json)) :
    (∀ c, lookupA kvs "command" = some c →
      parse_server_config name (.obj kvs) =
        .ok (some (.stdio name c (lookupD kvs "args" (.arr []))
          (lookupD kvs "env" (.obj [])) none))) ∧
    (lookupA kvs "command" = none → ∀ u, lookupA kvs "url" = some u →
      parse_server_config name (.obj kvs) =
        .ok (some (.http name u (lookupA kvs "auth") none))) ∧
    (lookupA kvs "command" = none → lookupA kvs "url" = none →
      parse_server_config name (.obj kvs) = .ok none) := by
  refine ⟨?_, ?_, ?_⟩
  · intro c hc
    have hf : pyFalsy (Json.obj kvs) = false := by
      cases kvs with
      | nil => simp [lookupA] at hc
      | cons e t => simp [pyFalsy, List.isEmpty]
    simp [parse_server_config, hf, hc]
  · intro hc u hu
    have hf : pyFalsy (Json.obj kvs) = false := by
      cases kvs with
      | nil => simp [lookupA] at hu
      | cons e t => simp [pyFalsy, List.isEmpty]
    simp [parse_server_config, hf, hc, hu]
  · intro hc hu
    by_cases hf : pyFalsy (Json.obj kvs) = true
    · simp [parse_server_config, hf]
    · simp [parse_server_config, hf, hc, hu]

/-- Witness for C5: a both-keys entry classifies stdio with defaulted
args and env, a url-only entry classifies http, and an entry with
neither key is dropped without error. -/
theorem parse_server_config_classification_witness :
    parse_server_config "s"
        (.obj [("command", .str "run"), ("url", .str "u")]) =
      .ok (some (.stdio "s" (.str "run") (.arr []) (.obj []) none)) ∧
    parse_server_config "h" (.obj [("url", .str "u"), ("auth",
        .obj [("type", .str "bearer")])]) =
      .ok (some (.http "h" (.str "u")
        (some (.obj [("type", .str "bearer")])) none)) ∧
    parse_server_config "x" (.obj [("other", .num 1)]) = .ok none := by
  refine ⟨?_, ?_, ?_⟩
  · exact (parse_server_config_classification "s"
      [("command", .str "run"), ("url", .str "u")]).1 (.str "run") rfl
  · exact (parse_server_config_classification "h"
      [("url", .str "u"), ("auth", .obj [("type", .str "bearer")])]).2.1
      rfl (.str "u") rfl
  · exact (parse_server_config_classification "x"
      [("other", .num 1)]).2.2 rfl rfl

/-- C6 (amended): a candidate file that is missing, unreadable, or not
valid JSON is skipped — discovery over any candidate list equals
discovery over its parsed files alone — and when every parsed file
processes without raising, discover returns exactly the concatenation
of the per-file normalized servers.  (A file that parses as JSON but
not into the expected dict shape instead raises, see the
counterexample.) -/
theorem discover_skips_malformed_files :
    (∀ fs : List (String × FileState), discover_servers fs =
      discover_servers (fs.filter (fun e => e.2.isParsed))) ∧
    (∀ fs : List (String × FileState),
      (∀ e ∈ fs, fileOk e.1 e.2 = true) →
      discover_servers fs =
        .ok (fs.map (fun e => fileContribution e.1 e.2)).flatten) := by
  constructor
  · intro fs
    induction fs with
    | nil => rfl
    | cons e t ih =>
      obtain ⟨p, st⟩ := e
      cases st with
      | missing =>
        rw [List.filter_cons_of_neg (by simp [FileState.isParsed])]
        simpa [discover_servers] using ih
      | unreadable =>
        rw [List.filter_cons_of_neg (by simp [FileState.isParsed])]
        simpa [discover_servers] using ih
      | badJson =>
        rw [List.filter_cons_of_neg (by simp [FileState.isParsed])]
        simpa [discover_servers] using ih
      | parsed j =>
        rw [List.filter_cons_of_pos (by simp [FileState.isParsed])]
        simp only [discover_servers]
        rw [ih]
  · intro fs h
    induction fs with
    | nil => simp [discover_servers]
    | cons e t ih =>
      obtain ⟨p, st⟩ := e
      have hh := h (p, st) (List.mem_cons_self _ _)
      have ht := ih (fun x hx => h x (List.mem_cons_of_mem _ hx))
      cases st with
      | missing => simpa [discover_servers, fileContribution] using ht
      | unreadable => simpa [discover_servers, fileContribution] using ht
      | badJson => simpa [discover_servers, fileContribution] using ht
      | parsed j =>
        rcases hf : fileServers p j with _ | ss
        · rw [fileOk, hf] at hh
          simp [isOkE] at hh
        · simp only [discover_servers, hf, ht, List.map_cons, List.flatten]
          simp [fileContribution, hf]

/-- Counterexample for C6 as stated: a file that parses as JSON but not
as the expected shape (here a bare number, on which the source's
membership test raises TypeError) aborts discovery entirely instead of
being skipped, so the servers of the preceding valid file are lost;
by contrast a file with invalid JSON really is skipped. -/
theorem discover_shape_malformed_counterexample :
    discover_servers
        [("good", .parsed shapeDemoFile), ("bad", .parsed (.num 5))] =
      .error () ∧
    discover_servers [("good", .parsed shapeDemoFile)] =
      .ok [.stdio "srv" (.str "run") (.arr []) (.obj []) (some "good")] ∧
    discover_servers [("good", .parsed shapeDemoFile), ("bad", .badJson)] =
      .ok [.stdio "srv" (.str "run") (.arr []) (.obj []) (some "good")] :=
  ⟨rfl, rfl, rfl⟩

/-- Witness for C6: with one unreadable file, one invalid-JSON file, a
missing file and one well-shaped file, discovery returns exactly the
valid file's servers. -/
theorem discover_skips_malformed_files_witness :
    discover_servers [("a", .badJson), ("good", .parsed shapeDemoFile),
        ("m", .missing), ("u", .unreadable)] =
      .ok [.stdio "srv" (.str "run") (.arr []) (.obj []) (some "good")] := by
  have h := discover_skips_malformed_files.2
    [("a", .badJson), ("good", .parsed shapeDemoFile),
      ("m", .missing), ("u", .unreadable)] (by decide)
  exact h

/-- C10: get_server_by_name returns None exactly when no discovered
entry carries the name; when it returns an entry, that entry is the
first match in the discovery order (no earlier-produced entry matches),
and an entry found in an earlier slice of the candidate list is
returned unchanged for the whole list. -/
theorem get_server_by_name_first_match (fs : List (String × FileState))
    (name : String) (ss : List NormalizedServer)
    (hd : discover_servers fs = .ok ss) :
    (get_server_by_name fs name = .ok none ↔ ∀ s ∈ ss, ¬ s.name = name) ∧
    (∀ r, get_server_by_name fs name = .ok (some r) →
      r.name = name ∧ ∃ i, ∃ hi : i < ss.length, ss.get ⟨i, hi⟩ = r ∧
        ∀ x ∈ ss.take i, ¬ x.name = name) ∧
    (∀ fs1 fs2 s1 r, fs = fs1 ++ fs2 → discover_servers fs1 = .ok s1 →
      get_server_by_name fs1 name = .ok (some r) →
      get_server_by_name fs name = .ok (some r)) := by
  have hg : get_server_by_name fs name =
      .ok (ss.find? (fun s => s.name == name)) := by
    unfold get_server_by_name
    rw [hd]
  refine ⟨?_, ?_, ?_⟩
  · rw [hg]
    simp only [Except.ok.injEq, List.find?_eq_none, beq_iff_eq]
  · intro r h
    rw [hg] at h
    simp only [Except.ok.injEq] at h
    have hp := List.find?_some h
    simp only [beq_iff_eq] at hp
    refine ⟨hp, ?_⟩
    rcases find?_some_earliest _ ss r h with ⟨i, hi, hget, htake⟩
    exact ⟨i, hi, hget, fun x hx => beq_eq_false_iff_ne.mp (htake x hx)⟩
  · intro fs1 fs2 s1 r hfs h1 hby
    subst hfs
    unfold get_server_by_name at hby ⊢
    rw [h1] at hby
    rw [hd]
    simp only [Except.ok.injEq] at hby ⊢
    rcases discover_append_split hd h1 with ⟨s2, _, hss⟩
    subst hss
    exact find?_append_some s2 hby

/-- Witness for C10: a name defined in two candidate files resolves to
the entry of the earlier file. -/
theorem get_server_by_name_first_match_witness :
    get_server_by_name [fileA, fileB] "srv" =
      .ok (some (.stdio "srv" (.str "a") (.arr []) (.obj [])
        (some "fileA"))) := by
  exact (get_server_by_name_first_match [fileA, fileB] "srv"
      [.stdio "srv" (.str "a") (.arr []) (.obj []) (some "fileA"),
       .stdio "srv" (.str "b") (.arr []) (.obj []) (some "fileB")] rfl).2.2
    [fileA] [fileB]
    [.stdio "srv" (.str "a") (.arr []) (.obj []) (some "fileA")]
    (.stdio "srv" (.str "a") (.arr []) (.obj []) (some "fileA")) rfl rfl rfl

/-- C1 (amended): for a connected stdio client, a reply that is a JSON
object with an `error` field holding an object and no `result` field
yields a ToolResult with isError=true and a single text content item
carrying the error's message, or "Unknown error" when the error object
has no message; a reply with a `result` field is returned verbatim and
a reply with neither field yields the Not connected error result — so
every object reply whose error field, when consulted, is itself an
object produces a typed result.  (When the error field is not an
object the call raises instead, see the counterexample.) -/
theorem execute_tool_error_passthrough (c : ClientState)
    (conn : ConnAttempt) (post : PostOutcome) (toolName : String)
    (arguments : Json) (kvs : List (String × Json))
    (hst : c.serverType = "stdio") (hconn : c.connected = true)
    (hproc : c.hasProcess = true) :
    (lookupA kvs "result" = none →
      ∀ em, lookupA kvs "error" = some (.obj em) →
      execute_tool c conn (.line (some (.obj kvs))) post toolName
          arguments =
        .ok (mkTextError (lookupD em "message" (.str "Unknown error")))) ∧
    (∀ v, lookupA kvs "result" = some v →
      execute_tool c conn (.line (some (.obj kvs))) post toolName
          arguments = .ok v) ∧
    (lookupA kvs "result" = none → lookupA kvs "error" = none →
      execute_tool c conn (.line (some (.obj kvs))) post toolName
          arguments = .ok notConnectedResult) := by
  have hexec : execute_tool c conn (.line (some (.obj kvs))) post toolName
      arguments = handleStdioResponse (.obj kvs) := by
    simp [execute_tool, hconn, hproc, hst, send_jsonrpc]
  refine ⟨?_, ?_, ?_⟩
  · intro hres em herr
    have hf : pyFalsy (Json.obj kvs) = false := by
      cases kvs with
      | nil => simp [lookupA] at herr
      | cons e t => simp [pyFalsy, List.isEmpty]
    rw [hexec]
    simp [handleStdioResponse, hf, pyContains, hres, herr, pyIndex,
      pyDictGet]
  · intro v hres
    have hf : pyFalsy (Json.obj kvs) = false := by
      cases kvs with
      | nil => simp [lookupA] at hres
      | cons e t => simp [pyFalsy, List.isEmpty]
    rw [hexec]
    simp [handleStdioResponse, hf, pyContains, hres, pyIndex]
  · intro hres herr
    rw [hexec]
    by_cases hf : pyFalsy (Json.obj kvs) = true
    · simp [handleStdioResponse, hf]
    · simp [handleStdioResponse, hf, pyContains, hres, herr]

/-- Counterexample for C1 as stated: a connected stdio client receiving
the object reply whose error field is the bare string "boom" makes
execute_tool raise AttributeError (the source calls `.get` on that
string), so execute_tool does not return a typed result for every
input. -/
theorem execute_tool_raises_counterexample :
    execute_tool connectedStdioClient (.returns true true false)
      (.line (some (.obj [("error", .str "boom")]))) (.resp 200 none)
      "t" (.obj []) = .exn "AttributeError" := rfl

/-- Witness for C1: a connected stdio client receiving an error object
without a message yields the Unknown error fallback result. -/
theorem execute_tool_error_passthrough_witness :
    execute_tool connectedStdioClient (.returns true true false)
      (.line (some (.obj [("error", .obj [("code", .num 1)])])))
      (.resp 200 none) "t" (.obj []) =
      .ok (mkTextError (.str "Unknown error")) := by
  exact (execute_tool_error_passthrough connectedStdioClient
      (.returns true true false) (.resp 200 none) "t" (.obj [])
      [("error", .obj [("code", .num 1)])] rfl rfl rfl).1 rfl
    [("code", .num 1)] rfl

/-- C8: the code evaluated at the claim's failing input — a connected
stdio client whose child process accepts the tools/call request but
never writes a response line: execute_tool diverges, because no
operation in the client wraps the readline (or any other await) in a
timeout; it therefore neither returns an isError result within the
configured timeout nor terminates the child. -/
theorem execute_tool_hangs_without_timeout :
    execute_tool connectedStdioClient (.returns true true false) .hang
      (.resp 200 none) "t" (.obj []) = .diverge := rfl

/-- C9: register(name, config) unconditionally installs a fresh
ServerInfo — status stopped, pid None, started_at None, error None,
request_count 0 — for the name, persists immediately, and its only
effect is that single state-file write: no signal is sent to a
previously running server's process and its tracked pid is discarded;
every other entry is untouched. -/
theorem register_replaces_with_fresh (st : RegState) (name : String)
    (config : List (String × Json)) :
    lookupA (registerRun st name config).1 name =
      some { name := name, config := config, pid := none,
             started_at := none, status := "stopped", error := none,
             request_count := 0 } ∧
    (registerRun st name config).2 =
      [Effect.save (saveRecs (registerRun st name config).1)] ∧
    (∀ t, t ≠ name →
      lookupA (registerRun st name config).1 t = lookupA st t) := by
  refine ⟨?_, rfl, ?_⟩
  · exact lookupA_updateA_self st name _
  · intro t ht
    exact lookupA_updateA_ne st name t _ ht

/-- Witness for C9: re-registering a name whose record is running with a
tracked pid and a nonzero counter installs the fresh stopped record and
leaves an unrelated lookup unchanged. -/
theorem register_replaces_with_fresh_witness :
    lookupA (registerRun [("old", demoRunningInfo)] "old"
        stdioDemoConfig).1 "old" =
      some { name := "old", config := stdioDemoConfig, pid := none,
             started_at := none, status := "stopped", error := none,
             request_count := 0 } ∧
    lookupA (registerRun [("old", demoRunningInfo)] "old"
        stdioDemoConfig).1 "zz" = none := by
  refine ⟨(register_replaces_with_fresh [("old", demoRunningInfo)] "old"
    stdioDemoConfig).1, ?_⟩
  rw [(register_replaces_with_fresh [("old", demoRunningInfo)] "old"
    stdioDemoConfig).2.2 "zz" (by decide)]
  rfl

/-- C3: a missing or unparsable state file loads as the empty registry
without raising, and every entry visible after loading a record list
has non-running status and stems from a persisted record; a record
persisted as running loads as stopped with its pid cleared. -/
theorem load_state_reconciliation :
    loadState none = [] ∧
    (∀ recs : List ServerInfo, ∀ e ∈ loadState (some recs),
      e.2.status ≠ "running" ∧
      ∃ r ∈ recs, e.1 = r.name ∧ e.2 = resetIfRunning r ∧
        (r.status = "running" →
          e.2.status = "stopped" ∧ e.2.pid = none)) := by
  refine ⟨rfl, ?_⟩
  intro recs e he
  rcases mem_loadState he with ⟨r, hr, he2⟩
  subst he2
  refine ⟨resetIfRunning_not_running r, r, hr, rfl, rfl, ?_⟩
  intro hrun
  show (resetIfRunning r).status = "stopped" ∧ (resetIfRunning r).pid = none
  unfold resetIfRunning
  rw [if_pos (beq_iff_eq.mpr hrun)]
  exact ⟨rfl, rfl⟩

/-- Witness for C3: loading a file holding one running record with a
pid yields exactly that record reset to stopped with no pid. -/
theorem load_state_reconciliation_witness :
    loadState none = [] ∧
    (("old", resetIfRunning demoRunningInfo).2.status ≠ "running" ∧
      ∃ r ∈ [demoRunningInfo],
        ("old", resetIfRunning demoRunningInfo).1 = r.name ∧
        ("old", resetIfRunning demoRunningInfo).2 = resetIfRunning r ∧
        (r.status = "running" →
          ("old", resetIfRunning demoRunningInfo).2.status = "stopped" ∧
          ("old", resetIfRunning demoRunningInfo).2.pid = none)) := by
  refine ⟨load_state_reconciliation.1, ?_⟩
  exact load_state_reconciliation.2 [demoRunningInfo]
    ("old", resetIfRunning demoRunningInfo)
    (show _ ∈ [("old", resetIfRunning demoRunningInfo)] from
      List.mem_singleton.mpr rfl)

/-- C2 (amended): in every reachable registry state a present pid
implies the record's config transport is stdio; stop() on a running
stdio server whose process is still alive succeeds with the pid cleared
alongside status stopped; but stop() on one whose process has already
exited keeps the stale pid alongside status stopped, because the
pid-clearing assignment sits after the kill inside the try block and is
skipped when the kill raises. -/
theorem pid_discipline (st : RegState) :
    (Reachable st → ∀ e ∈ st, e.2.pid ≠ none →
      lookupA e.2.config "type" = some (Json.str "stdio")) ∧
    (∀ name info, lookupA st name = some info → info.status = "running" →
      lookupA info.config "type" = some (Json.str "stdio") →
      pidTruthy info.pid = true →
      lookupA (stopRun st name true).1 name =
        some { info with pid := none, status := "stopped" } ∧
      (stopRun st name true).2.1 = .ok true) ∧
    (∀ name info, lookupA st name = some info → info.status = "running" →
      lookupA info.config "type" = some (Json.str "stdio") →
      pidTruthy info.pid = true →
      lookupA (stopRun st name false).1 name =
        some { info with status := "stopped" } ∧
      (stopRun st name false).2.1 = .ok true) := by
  refine ⟨?_, ?_, ?_⟩
  · intro h
    exact (reachable_regInv h).2.2
  · intro name info hl hs hstd hp
    have heq : stopRun st name true =
        (updateA st name { info with pid := none, status := "stopped" },
          .ok true, [Effect.sigterm (info.pid.getD 0),
            Effect.save (saveRecs (updateA st name
              { info with pid := none, status := "stopped" }))]) := by
      unfold stopRun
      rw [hl]
      simp [hs, hstd, Json.isStr, hp]
    rw [heq]
    exact ⟨lookupA_updateA_self _ _ _, rfl⟩
  · intro name info hl hs hstd hp
    have heq : stopRun st name false =
        (updateA st name { info with status := "stopped" },
          .ok true, [Effect.sigterm (info.pid.getD 0),
            Effect.save (saveRecs (updateA st name
              { info with status := "stopped" }))]) := by
      unfold stopRun
      rw [hl]
      simp [hs, hstd, Json.isStr, hp]
    rw [heq]
    exact ⟨lookupA_updateA_self _ _ _, rfl⟩

/-- Counterexample for C2 as stated: register a stdio server, start it
successfully (pid 7), then — after the process has died on its own —
stop it.  The resulting record has status "stopped" yet still carries
pid 7, so a pid is present in a status other than running. -/
theorem pid_retained_after_stop_dead_counterexample :
    (lookupA (stopRun (startRun (registerRun [] "srv" stdioDemoConfig).1
        "srv" false (.connectTrue (some 7)) 0).1 "srv" false).1
      "srv").map (fun i => (i.status, i.pid)) =
      some ("stopped", some 7) := rfl

/-- Witness for C2: in the reachable state with server srv running on
pid 7, every present pid belongs to a stdio config, and stopping with
the process alive clears the pid alongside status stopped. -/
theorem pid_discipline_witness :
    (∀ e ∈ (startRun (registerRun [] "srv" stdioDemoConfig).1 "srv" false
        (.connectTrue (some 7)) 0).1, e.2.pid ≠ none →
      lookupA e.2.config "type" = some (Json.str "stdio")) ∧
    lookupA (stopRun (startRun (registerRun [] "srv" stdioDemoConfig).1
        "srv" false (.connectTrue (some 7)) 0).1 "srv" true).1 "srv" =
      some { name := "srv", config := stdioDemoConfig, pid := none,
             started_at := some 0, status := "stopped", error := none,
             request_count := 0 } := by
  constructor
  · exact (pid_discipline _).1
      (Reachable.step (Reachable.step Reachable.init
        (.registerOp "srv" stdioDemoConfig))
        (.startOp "srv" false (.connectTrue (some 7)) 0))
  · exact ((pid_discipline (startRun (registerRun [] "srv"
        stdioDemoConfig).1 "srv" false (.connectTrue (some 7)) 0).1).2.1
      "srv"
      { name := "srv", config := stdioDemoConfig, pid := some 7,
        started_at := some 0, status := "running", error := none,
        request_count := 0 } rfl rfl rfl rfl).1

/-- C4: starting a registered stopped stdio server whose connect
succeeds with a spawned process (pid p, nonzero) returns true and
records running with that pid; a second start while the tracked
process is alive returns true with the state unchanged — pid and
status untouched — and no effects: no client is constructed (so no new
process is spawned) and nothing is persisted. -/
theorem start_idempotent_when_alive (st : RegState) (name : String)
    (info : ServerInfo) (p : Int) (now : Nat) (a1 : Bool)
    (hl : lookupA st name = some info) (hs : info.status = "stopped")
    (hstd : lookupA info.config "type" = some (Json.str "stdio"))
    (hp : p ≠ 0) :
    ∃ st1 effs, startRun st name a1 (.connectTrue (some p)) now =
        (st1, true, effs) ∧
      lookupA st1 name = some { info with
        status := "running", error := none, pid := some p,
        started_at := some now } ∧
      ∀ oc2 now2, startRun st1 name true oc2 now2 = (st1, true, []) := by
  have hpt : pidTruthy (some p) = true := by
    simp [pidTruthy, hp]
  have hcond : (info.status == "running" && pidTruthy info.pid && a1)
      = false := by
    rw [hs]
    simp
  have heq1 : startRun st name a1 (.connectTrue (some p)) now =
      (updateA st name { info with
          status := "running", error := none, pid := some p,
          started_at := some now }, true,
        [Effect.connect, Effect.save (saveRecs (updateA st name
          { info with
            status := "running", error := none, pid := some p,
            started_at := some now }))]) := by
    unfold startRun
    rw [hl]
    simp [hcond, hstd, Json.isStr]
  refine ⟨updateA st name { info with
      status := "running", error := none, pid := some p,
      started_at := some now }, _, heq1, ?_, ?_⟩
  · exact lookupA_updateA_self _ _ _
  · intro oc2 now2
    unfold startRun
    rw [lookupA_updateA_self _ _ _]
    simp [hpt]

/-- Witness for C4: the concrete two-start trace on a fresh registry. -/
theorem start_idempotent_when_alive_witness :
    ∃ st1 effs, startRun [("s", freshInfo "s" stdioDemoConfig)] "s" false
        (.connectTrue (some 7)) 0 = (st1, true, effs) ∧
      lookupA st1 "s" = some { freshInfo "s" stdioDemoConfig with
        status := "running", error := none,
        pid := some 7, started_at := some 0 } ∧
      ∀ oc2 now2, startRun st1 "s" true oc2 now2 = (st1, true, []) := by
  exact start_idempotent_when_alive [("s", freshInfo "s" stdioDemoConfig)]
    "s" (freshInfo "s" stdioDemoConfig) 7 0 false rfl rfl rfl (by decide)

/-- C7 (amended): in every reachable registry state, every operation
other than register — start, stop, restart, increment_request_count,
and a persist-then-reload cycle — leaves each server's request_count
unchanged or larger (re-registering a name, however, resets its counter
to zero: see the counterexample); increment_request_count adds exactly
one to a known name's counter and persists, and is a silent no-op
without effects for unknown names; and a persist-then-reload cycle
preserves every counter exactly. -/
theorem request_count_discipline :
    (∀ st, Reachable st → ∀ op : RegOp, op.isRegister = false →
      ∀ t i, lookupA st t = some i →
      ∃ j, lookupA (applyOp st op) t = some j ∧
        i.request_count ≤ j.request_count) ∧
    (∀ st name i, lookupA st name = some i →
      lookupA (incrementRun st name).1 name =
        some { i with request_count := i.request_count + 1 }) ∧
    (∀ st name, lookupA st name = none → incrementRun st name = (st, [])) ∧
    (∀ st, Reachable st → ∀ t i, lookupA st t = some i →
      ∃ j, lookupA (applyOp st .reloadOp) t = some j ∧
        j.request_count = i.request_count) := by
  refine ⟨?_, ?_, ?_, ?_⟩
  · intro st h op hop t i hl
    exact rc_mono_applyOp (reachable_regInv h) hop hl
  · intro st name i hl
    have heq : (incrementRun st name).1 = updateA st name
        { i with request_count := i.request_count + 1 } := by
      unfold incrementRun
      rw [hl]
    rw [heq]
    exact lookupA_updateA_self _ _ _
  · intro st name hl
    unfold incrementRun
    rw [hl]
  · intro st h t i hl
    refine ⟨resetIfRunning i, ?_, resetIfRunning_rc i⟩
    show lookupA (loadState (some (saveRecs st))) t = _
    rw [reload_lookupA (reachable_regInv h), hl]
    rfl

/-- Counterexample for C7 as stated: register, one increment (counter
1), then a second register of the same name — a registry operation that
is not a registry reset — brings the counter back to 0, so
request_count is not monotone across every operation sequence. -/
theorem request_count_reset_by_reregister_counterexample :
    (lookupA (incrementRun (registerRun [] "s" stdioDemoConfig).1
        "s").1 "s").map (fun i => i.request_count) = some 1 ∧
    (lookupA (registerRun (incrementRun (registerRun [] "s"
        stdioDemoConfig).1 "s").1 "s" stdioDemoConfig).1 "s").map
      (fun i => i.request_count) = some 0 :=
  ⟨rfl, rfl⟩

/-- Witness for C7: on the reachable one-server registry, an increment
preserves monotonicity, adds exactly one, a reload preserves the
counter exactly, and an unknown name is a no-op. -/
theorem request_count_discipline_witness :
    (∃ j, lookupA (applyOp [("s", freshInfo "s" stdioDemoConfig)]
        (.incrementOp "s")) "s" = some j ∧
      (freshInfo "s" stdioDemoConfig).request_count ≤ j.request_count) ∧
    lookupA (incrementRun [("s", freshInfo "s" stdioDemoConfig)] "s").1
        "s" = some { freshInfo "s" stdioDemoConfig with
        request_count := (freshInfo "s" stdioDemoConfig).request_count + 1 } ∧
    incrementRun [("s", freshInfo "s" stdioDemoConfig)] "zz" =
      ([("s", freshInfo "s" stdioDemoConfig)], []) ∧
    (∃ j, lookupA (applyOp [("s", freshInfo "s" stdioDemoConfig)]
        .reloadOp) "s" = some j ∧
      j.request_count = (freshInfo "s" stdioDemoConfig).request_count) := by
  have hreach : Reachable [("s", freshInfo "s" stdioDemoConfig)] :=
    Reachable.step Reachable.init (.registerOp "s" stdioDemoConfig)
  refine ⟨?_, ?_, ?_, ?_⟩
  · exact request_count_discipline.1 [("s", freshInfo "s" stdioDemoConfig)]
      hreach (.incrementOp "s") rfl "s" (freshInfo "s" stdioDemoConfig) rfl
  · exact request_count_discipline.2.1 [("s", freshInfo "s"
      stdioDemoConfig)] "s" (freshInfo "s" stdioDemoConfig) rfl
  · exact request_count_discipline.2.2.1 [("s", freshInfo "s"
      stdioDemoConfig)] "zz" rfl
  · exact request_count_discipline.2.2.2 [("s", freshInfo "s"
      stdioDemoConfig)] hreach "s" (freshInfo "s" stdioDemoConfig) rfl

end OptiMac
